import Mathlib

/-!
Verification of `singles_scrapper.py`: a shallow embedding of the scoring,
extraction, page-walking, merging and playlist-reconciliation functions of the
repository, together with theorems settling the specified properties.

Modelling conventions:
* Python numbers are modelled by `ℚ` (ratings, weighted scores) and `ℕ`
  (vote counts, page numbers, HTTP statuses); `int(...)`-parsed scores by `ℤ`.
* `round(x, 2)` is modelled by `round2` below, rounding the exact rational to
  2 decimal places.  (CPython rounds the nearest binary double half-to-even;
  the two agree everywhere the properties below are evaluated, since none of
  them sits on a representation tie.)
* Fallible code (unbound locals, out-of-range indexing, HTTP/transport
  exceptions, unparsable dates) is modelled with `Except`/`Option` result
  types.
* Collaborators (the HTML record source, the Spotify client) are modelled as
  explicit data/oracles passed to the embedded functions, exactly as the spec
  treats them (external collaborators behind an interface).
* `pandas.DataFrame`s of release rows are modelled as `List Release`;
  `DataFrame.sort_values` on several columns uses a lexsort, which is stable,
  so it is modelled by `List.insertionSort` (stable for the reflexive
  descending relation used below).
-/

namespace SinglesScrapper

/-! ### Scoring (`weighted_average_rating`, `bayesian_average`) -/

/-- Models `round(x, 2)` from the source: round to 2 decimal places. -/
def round2 (x : ℚ) : ℚ :=
  (round (x * 100) : ℚ) / 100

/-- Embeds `weighted_average_rating` (singles_scrapper.py lines 13-28):
`t1 = ((avg_rating * num_votes) + (global_avg * smoothing_factor)) / (num_votes + smoothing_factor)`
then `round(t1/10, 2)`.  Vote counts and the smoothing factor are natural
numbers (the source always passes non-negative integers). -/
def weighted_average_rating (avg_rating : ℚ) (num_votes : ℕ) (global_avg : ℚ)
    (smoothing_factor : ℕ) : ℚ :=
  let t1 := ((avg_rating * num_votes) + (global_avg * smoothing_factor)) /
    ((num_votes : ℚ) + (smoothing_factor : ℚ))
  round2 (t1 / 10)

/-- Embeds `bayesian_average` (singles_scrapper.py lines 31-46); same formula
with a prior-vote count in place of the smoothing factor. -/
def bayesian_average (avg_rating : ℚ) (num_votes : ℕ) (global_avg : ℚ)
    (prior_votes : ℕ) : ℚ :=
  let t1 := ((avg_rating * num_votes) + (global_avg * prior_votes)) /
    ((num_votes : ℚ) + (prior_votes : ℚ))
  round2 (t1 / 10)

/-! ### The `Release` row model and the merger (`merge_albums_singles`) -/

/-- One row of the scraped dataframes: columns
`Date, Title, Artist, Album, Rating, nb_votes, weighted`. -/
structure Release where
  date : String
  title : String
  artist : String
  album : String
  rating : ℤ
  nb_votes : ℕ
  weighted : ℚ
deriving DecidableEq, Repr

/-- Month-abbreviation table of `%b` (used by
`pd.to_datetime(..., format='%b %d, %Y')`). -/
def monthNum : String → Option ℕ
  | "Jan" => some 1
  | "Feb" => some 2
  | "Mar" => some 3
  | "Apr" => some 4
  | "May" => some 5
  | "Jun" => some 6
  | "Jul" => some 7
  | "Aug" => some 8
  | "Sep" => some 9
  | "Oct" => some 10
  | "Nov" => some 11
  | "Dec" => some 12
  | _ => none

/-- Days in each month of 2024 (a leap year — the source pins the year to
2024 when building the sort key). -/
def daysInMonth (m : ℕ) : ℕ :=
  if m = 2 then 29 else if m = 4 ∨ m = 6 ∨ m = 9 ∨ m = 11 then 30 else 31

/-- Decimal-digit parse of the `%d` day field. -/
def parseNat (cs : List Char) : Option ℕ :=
  if cs ≠ [] ∧ cs.all Char.isDigit then
    some (cs.foldl (fun a c => a * 10 + (c.toNat - '0'.toNat)) 0)
  else none

/-- Embeds `pd.to_datetime(Date + ', 2024', format='%b %d, %Y')` applied to
one `Date` cell: parse `"Mon D"` into an order-isomorphic key
`month * 100 + day` of the resulting 2024 timestamp; `none` models the
`ValueError` pandas raises on an unparsable or out-of-range date. -/
def parseDateKey (s : String) : Option ℕ :=
  match s.toList.splitOn ' ' with
  | [ms, ds] => do
    let m ← monthNum (String.mk ms)
    let d ← parseNat ds
    if 1 ≤ d ∧ d ≤ daysInMonth m then pure (m * 100 + d) else none
  | _ => none

/-- The `time_stamp_date` sort key of a row (defaulting to 0; the merger only
sorts after checking that every date parses). -/
def dk (x : Release) : ℕ :=
  (parseDateKey x.date).getD 0

/-- The ordering used by
`sort_values(by=['time_stamp_date', 'weighted'], ascending=[False, False])`:
`x` sorts no later than `y`. -/
def mergeRel (x y : Release) : Prop :=
  dk y < dk x ∨ (dk x = dk y ∧ y.weighted ≤ x.weighted)

instance : DecidableRel mergeRel := fun x y => by
  unfold mergeRel; infer_instance

instance : IsTotal Release mergeRel where
  total x y := by
    unfold mergeRel
    rcases Nat.lt_trichotomy (dk x) (dk y) with h | h | h
    · exact Or.inr (Or.inl h)
    · rcases le_total y.weighted x.weighted with hw | hw
      · exact Or.inl (Or.inr ⟨h, hw⟩)
      · exact Or.inr (Or.inr ⟨h.symm, hw⟩)
    · exact Or.inl (Or.inl h)

instance : IsTrans Release mergeRel where
  trans x y z hxy hyz := by
    unfold mergeRel at *
    rcases hxy with h1 | ⟨h1, hw1⟩ <;> rcases hyz with h2 | ⟨h2, hw2⟩
    · exact Or.inl (h2.trans h1)
    · exact Or.inl (h2 ▸ h1)
    · exact Or.inl (h1 ▸ h2)
    · exact Or.inr ⟨h1.trans h2, hw2.trans hw1⟩

/-- Embeds `merge_albums_singles` (singles_scrapper.py lines 372-389):
concatenate albums then singles (`pd.concat([albums_df, singles_df])`),
parse each `Date` cell with year 2024 into the `time_stamp_date` key
(`none` if any cell raises), sort by that key then `weighted`, both
descending (a stable multi-column sort), and drop the key column — the
output rows carry exactly the original `Release` fields. -/
def merge_albums_singles (singles_df albums_df : List Release) :
    Option (List Release) :=
  let all_df := albums_df ++ singles_df
  if all_df.all (fun x => (parseDateKey x.date).isSome) then
    some (List.insertionSort mergeRel all_df)
  else
    none

/-! ### The record extractor (`get_dataframe_from_soup`) -/

/-- One `<tr>` row of an album detail page (a `TrackDetail`): the fields the
track loop (lines 128-136) reads.  `hasSpan` models the
`track.find('span') is None` guard. -/
structure TrackRow where
  hasSpan : Bool
  name : String
  rating : ℤ
  votes : ℕ
deriving DecidableEq, Repr

/-- One listing block (`div.albumBlock five small`): the fields the extractor
reads.  `ratings` holds the parsed texts of the `div.rating` entries (critic
first when two are present), `ratingTexts` the parsed vote counts of the
`div.ratingText` entries (indexed 3 resp. 1 by the source), `hasDate` the
presence of `div.date`, `typeText` the `div.type` date string.  For albums,
`trackRows` inlines the collaborator's detail-page response for this block's
`album_url`. -/
structure AlbumBlock where
  ratings : List ℤ
  ratingTexts : List ℕ
  hasDate : Bool
  typeText : String
  artistTitle : String
  albumTitle : String
  trackRows : List TrackRow
deriving DecidableEq, Repr

/-- Python exceptions the extractor can raise on malformed blocks. -/
inductive ExtractErr where
  | nameError
  | indexError
deriving DecidableEq, Repr

/-- The thresholds and release-type context of one extraction call. -/
structure ExtractParams where
  min_nb_ratings : ℕ
  min_rating : ℤ
  min_weighted : ℚ
  isAlbums : Bool
  min_rating_tracks : ℤ
  min_votes_tracks : ℕ
  top_songs_keep : ℕ
deriving DecidableEq, Repr

/-- Models the insertion-ordered dict assignment `track_ratings[name]` (an
existing key keeps its position and gets the new value). -/
def dictInsert (d : List (String × ℤ × ℕ)) (k : String) (v : ℤ × ℕ) :
    List (String × ℤ × ℕ) :=
  if d.any (fun p => p.1 = k) then
    d.map (fun p => if p.1 = k then (k, v) else p)
  else d ++ [(k, v)]

/-- Lines 127-136: build the `track_ratings` dict from the detail rows,
keeping tracks with `rating >= min_rating_tracks and votes >= min_votes_tracks`. -/
def buildTrackRatings (rows : List TrackRow) (min_rating_tracks : ℤ)
    (min_votes_tracks : ℕ) : List (String × ℤ × ℕ) :=
  rows.foldl (fun d t =>
    if t.hasSpan then
      if min_rating_tracks ≤ t.rating ∧ min_votes_tracks ≤ t.votes then
        dictInsert d t.name (t.rating, t.votes)
      else d
    else d) []

/-- The descending-rating order of `sorted(..., key=lambda x: x[1]['rating'],
reverse=True)`: `x` sorts no later than `y`. -/
def trackRel (x y : String × ℤ × ℕ) : Prop :=
  y.2.1 ≤ x.2.1

instance : DecidableRel trackRel := fun x y => by
  unfold trackRel; infer_instance

/-- Models `np.mean` of the qualifying tracks' ratings. -/
def meanRating (d : List (String × ℤ × ℕ)) : ℚ :=
  (d.map (fun p => (p.2.1 : ℚ))).sum / (d.length : ℚ)

/-- Lines 140-148: pick the top songs — 1 if the mean rating is below 82,
2 if below 84, else `top_songs_keep`, from the stable descending-rating sort
of the `track_ratings` dict (CPython's `sorted` is stable, also with
`reverse=True`). -/
def topSongs (d : List (String × ℤ × ℕ)) (top_songs_keep : ℕ) :
    List (String × ℤ × ℕ) :=
  if meanRating d < 82 then (List.insertionSort trackRel d).take 1
  else if meanRating d < 84 then (List.insertionSort trackRel d).take 2
  else (List.insertionSort trackRel d).take top_songs_keep

/-- The body of the `for album_block in album_blocks` loop (lines 80-171) for
one block.  The state threads the Python locals `user_score`/
`user_score_count`, which survive `continue`d iterations: blocks with three
or more rating entries enter neither assignment branch and reuse the stale
pair — `none` (no earlier assignment) raises `NameError`; a missing
`ratingText` index raises `IndexError`. -/
def processBlock (P : ExtractParams) (st : Option (ℤ × ℕ)) (b : AlbumBlock) :
    Except ExtractErr (Option (ℤ × ℕ) × List Release) := do
  let len_votes := b.ratings.length
  if len_votes = 0 then return (st, [])
  if ¬ b.hasDate then return (st, [])
  let st' : Option (ℤ × ℕ) ←
    if len_votes = 2 then
      match b.ratings.get? 1, b.ratingTexts.get? 3 with
      | some u, some c => Except.ok (some (u, c))
      | _, _ => Except.error .indexError
    else if len_votes = 1 then
      match b.ratings.get? 0, b.ratingTexts.get? 1 with
      | some u, some c => Except.ok (some (u, c))
      | _, _ => Except.error .indexError
    else Except.ok st
  match st' with
  | none => Except.error .nameError
  | some (user_score, user_score_count) =>
    if P.min_nb_ratings ≤ user_score_count ∧ P.min_rating ≤ user_score then
      let weighted_score := weighted_average_rating user_score user_score_count 74 15
      if P.isAlbums then
        if b.trackRows.length = 0 then return (st', [])
        let track_ratings :=
          buildTrackRatings b.trackRows P.min_rating_tracks P.min_votes_tracks
        if track_ratings.length = 0 then return (st', [])
        let top := topSongs track_ratings P.top_songs_keep
        return (st', top.map (fun p =>
          { date := b.typeText, title := p.1, artist := b.artistTitle,
            album := b.albumTitle, rating := p.2.1, nb_votes := p.2.2,
            weighted := weighted_average_rating p.2.1 p.2.2 74 15 }))
      else
        return (st',
          [{ date := b.typeText, title := b.albumTitle,
             artist := b.artistTitle, album := "Single", rating := user_score,
             nb_votes := user_score_count, weighted := weighted_score }])
    else return (st', [])

/-- The whole block loop, accumulating every appended row in order. -/
def processBlocks (P : ExtractParams) :
    Option (ℤ × ℕ) → List AlbumBlock → Except ExtractErr (List Release)
  | _, [] => Except.ok []
  | st, b :: bs => do
    let (st', new) ← processBlock P st b
    let rest ← processBlocks P st' bs
    return new ++ rest

/-- Embeds `get_dataframe_from_soup` (lines 49-190): run the block loop, then
drop every row whose weighted score is below `min_weighted` (line 188). -/
def get_dataframe_from_soup (P : ExtractParams) (blocks : List AlbumBlock) :
    Except ExtractErr (List Release) := do
  let rows ← processBlocks P none blocks
  return rows.filter (fun x => P.min_weighted ≤ x.weighted)

/-! ### The page walker (`scrape_multiple_pages`) -/

/-- What one `requests.get` of a listing page produces: a transport-level
exception, or a response with an HTTP status and (once parsed) its listing
blocks. -/
inductive FetchResult where
  | exn
  | resp (status : ℕ) (blocks : List AlbumBlock)
deriving DecidableEq, Repr

/-- The walker's printed lines: `Error: {e}` and
`Failed to fetch page {url}. Status code: {code}`. -/
inductive WalkLog where
  | fetchError
  | badStatus (status : ℕ)
deriving DecidableEq, Repr

/-- How a walk can die: `NameError` (the status check reads `response` before
any fetch succeeded) or an exception raised inside the extractor. -/
inductive WalkErr where
  | nameError
  | extract (e : ExtractErr)
deriving DecidableEq, Repr

/-- The loop state of `scrape_multiple_pages`: the Python local `response`
(unassigned before the first non-throwing fetch), the accumulated
`final_df`, and the printed log. -/
structure WalkState where
  response : Option (ℕ × List AlbumBlock)
  final_df : List Release
  log : List WalkLog
deriving DecidableEq, Repr

/-- One iteration of the page loop (lines 214-234): try the fetch — an
exception is printed and leaves `response` at its previous value — then run
the status check on whatever `response` now holds. -/
def stepPage (P : ExtractParams) (st : WalkState) (f : FetchResult) :
    Except WalkErr WalkState :=
  let (resp, log) : Option (ℕ × List AlbumBlock) × List WalkLog :=
    match f with
    | .exn => (st.response, st.log ++ [.fetchError])
    | .resp s b => (some (s, b), st.log)
  match resp with
  | none => Except.error .nameError
  | some (status, blocks) =>
    if status = 200 then
      match get_dataframe_from_soup P blocks with
      | .error e => Except.error (.extract e)
      | .ok df => Except.ok ⟨some (status, blocks), st.final_df ++ df, log⟩
    else Except.ok ⟨some (status, blocks), st.final_df, log ++ [.badStatus status]⟩

/-- Embeds `scrape_multiple_pages` (lines 193-237): walk the inclusive page
range `start_page..end_page` against a fetch collaborator. -/
def scrape_multiple_pages (P : ExtractParams) (fetch : ℕ → FetchResult)
    (start_page end_page : ℕ) : Except WalkErr WalkState :=
  (List.range' start_page (end_page + 1 - start_page)).foldlM
    (fun st p => stepPage P st (fetch p)) ⟨none, [], []⟩

/-! ### The playlist reconciler (`add_songs_to_playlist`,
`get_all_playlist_tracks`) -/

/-- The `q=f"artist:{artist} track:{track_name}"` search query of a row. -/
def searchQuery (r : Release) : String :=
  "artist:" ++ r.artist ++ " track:" ++ r.title

/-- The reconciler's loop state: the in-memory `existing_track_uris` set, the
sequence of `playlist_add_items` calls issued so far, and the rows of
`singles_df_copy` that were not dropped. -/
structure AddState where
  existing_track_uris : List String
  added : List String
  kept : List Release
deriving DecidableEq, Repr

/-- One iteration of the row loop of `add_songs_to_playlist`
(lines 279-304): search, drop if not found, drop without adding if the top
match's URI is already in the in-memory set, else add and record the URI. -/
def addStep (search : String → Option String) (st : AddState) (row : Release) :
    AddState :=
  match search (searchQuery row) with
  | some track_uri =>
    if track_uri ∈ st.existing_track_uris then st
    else
      { existing_track_uris := track_uri :: st.existing_track_uris,
        added := st.added ++ [track_uri],
        kept := st.kept ++ [row] }
  | none => st

/-- Embeds `add_songs_to_playlist` (lines 244-306) after authentication: the
in-memory set is seeded with the URIs of the initial membership fetch; the
result is the sequence of add calls and the returned dataframe
(`singles_df_copy.iloc[::-1]`, the surviving rows reversed). -/
def add_songs_to_playlist (search : String → Option String)
    (existing : List String) (singles_df : List Release) :
    List String × List Release :=
  let final := singles_df.foldl (addStep search) ⟨existing, [], []⟩
  (final.added, final.kept.reverse)

/-- One page of `sp.playlist_tracks`/`sp.next`: its track names/URIs and
whether a `next` cursor is present — or a `spotipy.SpotifyException` with an
HTTP status. -/
inductive PageResult where
  | ok (items : List String) (next : Bool)
  | err (http_status : ℕ)
deriving DecidableEq, Repr

/-- The membership fetch's printed lines: `Playlist not found: {uri}` and
`Error: {e}`. -/
inductive PlaylistLog where
  | notFound (pid : String)
  | otherError (status : ℕ)
deriving DecidableEq, Repr

/-- The fetch loop of `get_all_playlist_tracks`: consume successive page
responses while `response['next']` is set; any `SpotifyException` discards
the tracks collected so far and returns `[]`, printing "Playlist not found"
for a 404 and a generic error otherwise. -/
def getAllAux (pid : String) (all_tracks : List String) :
    List PageResult → List String × List PlaylistLog
  | [] => (all_tracks, [])
  | .err 404 :: _ => ([], [.notFound pid])
  | .err s :: _ => ([], [.otherError s])
  | .ok items false :: _ => (all_tracks ++ items, [])
  | .ok items true :: rest => getAllAux pid (all_tracks ++ items) rest

/-- Embeds `get_all_playlist_tracks` (lines 338-369) against a playlist-store
collaborator modelled as the list of successive page responses. -/
def get_all_playlist_tracks (pid : String) (stream : List PageResult) :
    List String × List PlaylistLog :=
  getAllAux pid [] stream

/-! ### Concrete rows used by witnesses -/

/-- A concrete single row, dated Jan 5. -/
def wSingle : Release :=
  { date := "Jan 5", title := "S", artist := "a", album := "Single",
    rating := 80, nb_votes := 20, weighted := 8 }

/-- A concrete album-track row, dated Jan 5, lower weighted score. -/
def wAlbum : Release :=
  { date := "Jan 5", title := "T", artist := "b", album := "A",
    rating := 79, nb_votes := 30, weighted := 7 }

/-- A concrete album-track row, dated Jan 4. -/
def wAlbum4 : Release :=
  { date := "Jan 4", title := "T", artist := "b", album := "A",
    rating := 79, nb_votes := 30, weighted := 7 }

/-- Concrete extraction thresholds (the singles defaults of the main flow,
with a zero weighted-score gate). -/
def wParams : ExtractParams :=
  { min_nb_ratings := 7, min_rating := 76, min_weighted := 0,
    isAlbums := false, min_rating_tracks := 80, min_votes_tracks := 7,
    top_songs_keep := 3 }

/-- A concrete listing block with zero rating entries. -/
def wBlockZero : AlbumBlock :=
  { ratings := [], ratingTexts := [], hasDate := true, typeText := "Jan 6",
    artistTitle := "z", albumTitle := "Z", trackRows := [] }

end SinglesScrapper

namespace SinglesScrapper

/-! ### Helper lemmas -/

theorem round2_mono {x y : ℚ} (h : x ≤ y) : round2 x ≤ round2 y := by
  unfold round2
  have : round (x * 100) ≤ round (y * 100) := by
    rw [round_eq, round_eq]
    exact Int.floor_mono (by linarith)
  have : ((round (x * 100) : ℚ)) ≤ ((round (y * 100) : ℚ)) := by exact_mod_cast this
  linarith

/-- Filtering an ordered insertion: when every element selected by `p` is
`r`-dominated by `a` (so that `a` is inserted before all of them), the
filtered result is `a` prepended (if selected) to the filtered tail. -/
theorem filter_orderedInsert {α : Type*} (r : α → α → Prop) [DecidableRel r]
    (p : α → Bool) (a : α) (l : List α)
    (hpr : ∀ b, p b = true → p a = true → r a b) :
    (List.orderedInsert r a l).filter p =
      if p a then a :: l.filter p else l.filter p := by
  induction l with
  | nil =>
    by_cases hpa : p a <;> simp [List.orderedInsert, List.filter, hpa]
  | cons b l ih =>
    by_cases hab : r a b
    · by_cases hpa : p a <;> simp [List.orderedInsert, hab, List.filter_cons, hpa]
    · rcases hpb : p b with _ | _
      · by_cases hpa : p a <;>
          simp [List.orderedInsert, hab, List.filter_cons, hpa, hpb, ih]
      · have hpa : p a = false := by
          rcases h : p a with _ | _
          · rfl
          · exact absurd (hpr b hpb h) hab
        simp [List.orderedInsert, hab, List.filter_cons, hpa, hpb, ih]

/-- Stability of `insertionSort`: the sort does not reorder elements that are
mutually related by `r` (in particular, elements with equal sort keys, for the
reflexive descending key orders used here), so filtering such a class out of
the sorted list returns them in input order. -/
theorem filter_insertionSort {α : Type*} (r : α → α → Prop) [DecidableRel r]
    (p : α → Bool) (hp : ∀ a b, p a = true → p b = true → r a b) :
    ∀ l : List α, (List.insertionSort r l).filter p = l.filter p := by
  intro l
  induction l with
  | nil => rfl
  | cons a l ih =>
    have h := filter_orderedInsert r p a (List.insertionSort r l)
      (fun b hb ha => hp a b ha hb)
    by_cases hpa : p a <;> simp [List.insertionSort, h, hpa, ih, List.filter_cons]

/-! ### C1, C8, C9 — scoring claims -/

/-- C1: for `num_votes + smoothing_factor > 0` the scoring function returns
`((rating*voteCount) + (globalAverage*smoothingFactor)) / (voteCount+smoothingFactor)`,
divided by 10 and rounded to 2 decimals; in particular
`weighted_average_rating 80 20 74 15 = 7.74`. -/
theorem scoring_formula_and_example (r g : ℚ) (v s : ℕ) (h : 0 < v + s) :
    weighted_average_rating r v g s =
      round2 (((r * v + g * s) / ((v : ℚ) + (s : ℚ))) / 10) ∧
    weighted_average_rating 80 20 74 15 = 774 / 100 := by
  constructor
  · rfl
  · norm_num [weighted_average_rating, round2, round_eq]

/-- Witness for C1 at `r = 80`, `v = 20`, `g = 74`, `s = 15`. -/
theorem scoring_formula_and_example_witness :
    weighted_average_rating 80 20 74 15 = 774 / 100 :=
  (scoring_formula_and_example 80 74 20 15 (by decide)).2

/-- C8: for fixed voteCount, globalAverage and smoothingFactor with
`voteCount + smoothingFactor > 0`, the weighted score is monotonically
non-decreasing in the rating, through the 2-decimal rounding step. -/
theorem weighted_score_monotone_in_rating (r₁ r₂ g : ℚ) (v s : ℕ)
    (h : 0 < v + s) (hr : r₁ ≤ r₂) :
    weighted_average_rating r₁ v g s ≤ weighted_average_rating r₂ v g s := by
  have hden : (0 : ℚ) < (v : ℚ) + (s : ℚ) := by exact_mod_cast h
  unfold weighted_average_rating
  apply round2_mono
  gcongr

/-- Witness for C8 at `r₁ = 70`, `r₂ = 80`, `g = 74`, `v = 20`, `s = 15`. -/
theorem weighted_score_monotone_in_rating_witness :
    weighted_average_rating 70 20 74 15 ≤ weighted_average_rating 80 20 74 15 :=
  weighted_score_monotone_in_rating 70 80 74 20 15 (by decide) (by norm_num)

/-- C9: with zero votes the weighted score is `globalAverage/10` rounded to two
decimals, independently of the rating. -/
theorem weighted_score_votes_zero (r r' g : ℚ) (s : ℕ) (hs : 0 < s) :
    weighted_average_rating r 0 g s = round2 (g / 10) ∧
    weighted_average_rating r 0 g s = weighted_average_rating r' 0 g s := by
  have hs' : (s : ℚ) ≠ 0 := Nat.cast_ne_zero.mpr hs.ne'
  have key : ∀ x : ℚ, weighted_average_rating x 0 g s = round2 (g / 10) := by
    intro x
    unfold weighted_average_rating
    push_cast
    field_simp
  exact ⟨key r, (key r).trans (key r').symm⟩

/-- Witness for C9 at `r = 5`, `r' = 96`, `g = 74`, `s = 15`. -/
theorem weighted_score_votes_zero_witness :
    weighted_average_rating 5 0 74 15 = round2 (74 / 10) ∧
    weighted_average_rating 5 0 74 15 = weighted_average_rating 96 0 74 15 :=
  weighted_score_votes_zero 5 96 74 15 (by decide)

/-! ### C2, C10 — merger claims -/

/-- C2: in the merged collection, of two rows with equal parsed date the one
with the higher weighted score sorts first; and for every (date key, weighted)
class the merger's sort preserves the relative order the rows had in the
concatenation albums-then-singles (stability for equal keys). -/
theorem merge_sort_ordered_and_stable (singles albums out : List Release)
    (h : merge_albums_singles singles albums = some out) :
    (∀ i j : Fin out.length, i < j →
        dk (out.get i) = dk (out.get j) →
        (out.get j).weighted ≤ (out.get i).weighted) ∧
    (∀ k w, out.filter (fun x => decide (dk x = k) && decide (x.weighted = w)) =
        (albums ++ singles).filter
          (fun x => decide (dk x = k) && decide (x.weighted = w))) := by
  unfold merge_albums_singles at h
  by_cases hall :
      (albums ++ singles).all (fun x => (parseDateKey x.date).isSome)
  · simp only [hall, if_pos] at h
    obtain rfl : List.insertionSort mergeRel (albums ++ singles) = out := by
      simpa using h
    constructor
    · intro i j hij hdk
      have hs := List.sorted_insertionSort mergeRel (albums ++ singles)
      have hrel := hs.rel_get_of_lt hij
      rcases hrel with hlt | ⟨_, hw⟩
      · exact absurd (hdk ▸ hlt) (lt_irrefl _)
      · exact hw
    · intro k w
      apply filter_insertionSort
      intro a b ha hb
      simp only [Bool.and_eq_true, decide_eq_true_eq] at ha hb
      exact Or.inr ⟨ha.1.trans hb.1.symm, le_of_eq (hb.2.trans ha.2.symm)⟩
  · simp [hall] at h

/-- Witness for C2: two rows with the same date, the single scoring higher. -/
theorem merge_sort_ordered_and_stable_witness :
    (∀ i j : Fin ([wSingle, wAlbum] : List Release).length, i < j →
        dk (([wSingle, wAlbum] : List Release).get i) =
          dk (([wSingle, wAlbum] : List Release).get j) →
        (([wSingle, wAlbum] : List Release).get j).weighted ≤
          (([wSingle, wAlbum] : List Release).get i).weighted) ∧
    (∀ k w,
      ([wSingle, wAlbum] : List Release).filter
        (fun x => decide (dk x = k) && decide (x.weighted = w)) =
      ([wAlbum] ++ [wSingle]).filter
        (fun x => decide (dk x = k) && decide (x.weighted = w))) :=
  merge_sort_ordered_and_stable [wSingle] [wAlbum] [wSingle, wAlbum] (by decide)

/-- C10: the merger neither adds, removes nor mutates rows — its output is a
permutation of the concatenation of its two inputs (every field unchanged),
and the sort key is no column of the output (`Release` has no such field). -/
theorem merge_preserves_rows (singles albums out : List Release)
    (h : merge_albums_singles singles albums = some out) :
    out.Perm (albums ++ singles) := by
  unfold merge_albums_singles at h
  by_cases hall :
      (albums ++ singles).all (fun x => (parseDateKey x.date).isSome)
  · simp only [hall, if_pos] at h
    obtain rfl : List.insertionSort mergeRel (albums ++ singles) = out := by
      simpa using h
    exact List.perm_insertionSort mergeRel (albums ++ singles)
  · simp [hall] at h

/-- Witness for C10 on concrete one-row inputs. -/
theorem merge_preserves_rows_witness :
    ([wSingle, wAlbum4] : List Release).Perm ([wAlbum4] ++ [wSingle]) :=
  merge_preserves_rows [wSingle] [wAlbum4] [wSingle, wAlbum4] (by decide)

/-! ### C7 — blocks with zero rating entries -/

/-- C7: for every page and every choice of thresholds, a listing block with
zero rating entries contributes no row to the extractor's output — removing
it from the page leaves the output unchanged. -/
theorem zero_ratings_block_contributes_nothing (P : ExtractParams)
    (pre post : List AlbumBlock) (b : AlbumBlock) (hb : b.ratings = []) :
    get_dataframe_from_soup P (pre ++ b :: post) =
      get_dataframe_from_soup P (pre ++ post) := by
  have hb0 : ∀ st, processBlock P st b = Except.ok (st, []) := by
    intro st
    unfold processBlock
    simp [hb, Pure.pure, Except.pure]
  have key : ∀ st, processBlocks P st (pre ++ b :: post) =
      processBlocks P st (pre ++ post) := by
    induction pre with
    | nil =>
      intro st
      simp only [List.nil_append, processBlocks, hb0]
      cases hr : processBlocks P st post <;>
        simp [hr, Bind.bind, Except.bind, Pure.pure, Except.pure]
    | cons a pre ih =>
      intro st
      simp only [List.cons_append, processBlocks]
      cases hpa : processBlock P st a with
      | error e => rfl
      | ok r =>
        obtain ⟨st', new⟩ := r
        simp [Bind.bind, Except.bind, ih st']
  unfold get_dataframe_from_soup
  rw [key]

/-- Witness for C7: a zero-ratings block alone on the page. -/
theorem zero_ratings_block_contributes_nothing_witness :
    get_dataframe_from_soup wParams ([] ++ wBlockZero :: []) =
      get_dataframe_from_soup wParams ([] ++ []) :=
  zero_ratings_block_contributes_nothing wParams [] [] wBlockZero rfl

/-! ### C4 — album mean-rating branch boundaries -/

/-- C4: an album whose qualifying tracks have mean rating exactly 82 keeps
the top 2 tracks (the 82 boundary is inclusive for the 2-song branch, a mean
below 82 keeping only 1); a mean of exactly 84 keeps the configured
`top_songs_keep` tracks; and the descending sort keeps equal-rating tracks in
original detail-page order. -/
theorem album_mean_branch_boundaries (d : List (String × ℤ × ℕ)) (k : ℕ) :
    (meanRating d < 82 → topSongs d k = (List.insertionSort trackRel d).take 1) ∧
    (meanRating d = 82 → topSongs d k = (List.insertionSort trackRel d).take 2) ∧
    (meanRating d = 84 → topSongs d k = (List.insertionSort trackRel d).take k) ∧
    (∀ v : ℤ, (List.insertionSort trackRel d).filter (fun p => decide (p.2.1 = v)) =
      d.filter (fun p => decide (p.2.1 = v))) := by
  refine ⟨fun hm => ?_, fun hm => ?_, fun hm => ?_, fun v => ?_⟩
  · simp [topSongs, hm]
  · rw [topSongs, hm]
    norm_num
  · rw [topSongs, hm]
    norm_num
  · apply filter_insertionSort
    intro a b ha hb
    simp only [decide_eq_true_eq] at ha hb
    exact le_of_eq (hb.trans ha.symm)

/-- Witness for C4 at qualifying-track lists with means 81, 82 and 84. -/
theorem album_mean_branch_boundaries_witness :
    topSongs [("w", (81 : ℤ), (8 : ℕ))] 3 =
      (List.insertionSort trackRel [("w", (81 : ℤ), (8 : ℕ))]).take 1 ∧
    topSongs [("t1", (82 : ℤ), (10 : ℕ)), ("t2", 82, 12)] 3 =
      (List.insertionSort trackRel
        [("t1", (82 : ℤ), (10 : ℕ)), ("t2", 82, 12)]).take 2 ∧
    topSongs [("u", (84 : ℤ), (9 : ℕ))] 3 =
      (List.insertionSort trackRel [("u", (84 : ℤ), (9 : ℕ))]).take 3 :=
  ⟨(album_mean_branch_boundaries [("w", 81, 8)] 3).1
      (by norm_num [meanRating]),
   (album_mean_branch_boundaries [("t1", 82, 10), ("t2", 82, 12)] 3).2.1
      (by norm_num [meanRating]),
   (album_mean_branch_boundaries [("u", 84, 9)] 3).2.2.1
      (by norm_num [meanRating])⟩

/-! ### C3 — one add call per resolved track identifier -/

theorem addFold_mem_added (search : String → Option String)
    (rows : List Release) :
    ∀ (st : AddState) (u : String),
      u ∈ (rows.foldl (addStep search) st).added ↔
        u ∈ st.added ∨ (u ∉ st.existing_track_uris ∧
          ∃ r ∈ rows, search (searchQuery r) = some u) := by
  induction rows with
  | nil => intro st u; simp
  | cons r rows ih =>
    intro st u
    simp only [List.foldl_cons]
    cases hs : search (searchQuery r) with
    | none =>
      have h1 : addStep search st r = st := by simp [addStep, hs]
      rw [h1, ih]
      simp [List.exists_mem_cons_iff, hs]
    | some v =>
      by_cases hv : v ∈ st.existing_track_uris
      · have h1 : addStep search st r = st := by simp [addStep, hs, hv]
        rw [h1, ih]
        constructor
        · rintro (h | ⟨hex, x, hx, hfx⟩)
          · exact Or.inl h
          · exact Or.inr ⟨hex, x, List.mem_cons_of_mem _ hx, hfx⟩
        · rintro (h | ⟨hex, x, hx, hfx⟩)
          · exact Or.inl h
          · rcases List.mem_cons.mp hx with rfl | hx'
            · rw [hs] at hfx
              obtain rfl : v = u := Option.some.inj hfx
              exact absurd hv hex
            · exact Or.inr ⟨hex, x, hx', hfx⟩
      · have h1 : addStep search st r =
            { existing_track_uris := v :: st.existing_track_uris,
              added := st.added ++ [v], kept := st.kept ++ [r] } := by
          simp [addStep, hs, hv]
        rw [h1, ih]
        constructor
        · rintro (h | ⟨hex, x, hx, hfx⟩)
          · rcases List.mem_append.mp h with h' | h'
            · exact Or.inl h'
            · simp only [List.mem_singleton] at h'
              subst h'
              exact Or.inr ⟨hv, r, List.mem_cons_self r rows, hs⟩
          · have hex' : u ∉ st.existing_track_uris :=
              fun hm => hex (List.mem_cons_of_mem _ hm)
            exact Or.inr ⟨hex', x, List.mem_cons_of_mem _ hx, hfx⟩
        · rintro (h | ⟨hex, x, hx, hfx⟩)
          · exact Or.inl (List.mem_append.mpr (Or.inl h))
          · rcases List.mem_cons.mp hx with rfl | hx'
            · rw [hs] at hfx
              obtain rfl : v = u := Option.some.inj hfx
              exact Or.inl (List.mem_append.mpr
                (Or.inr (List.mem_singleton.mpr rfl)))
            · by_cases huv : u = v
              · subst huv
                exact Or.inl (List.mem_append.mpr
                  (Or.inr (List.mem_singleton.mpr rfl)))
              · have hnot : u ∉ v :: st.existing_track_uris := by
                  intro hm
                  rcases List.mem_cons.mp hm with h' | h'
                  · exact huv h'
                  · exact hex h'
                exact Or.inr ⟨hnot, x, hx', hfx⟩

theorem addFold_nodup (search : String → Option String) (rows : List Release) :
    ∀ st : AddState, st.added.Nodup →
      (∀ u ∈ st.added, u ∈ st.existing_track_uris) →
      ((rows.foldl (addStep search) st).added.Nodup ∧
        ∀ u ∈ (rows.foldl (addStep search) st).added,
          u ∈ (rows.foldl (addStep search) st).existing_track_uris) := by
  induction rows with
  | nil => intro st h1 h2; exact ⟨h1, h2⟩
  | cons r rows ih =>
    intro st h1 h2
    simp only [List.foldl_cons]
    cases hs : search (searchQuery r) with
    | none =>
      have he : addStep search st r = st := by simp [addStep, hs]
      rw [he]
      exact ih st h1 h2
    | some v =>
      by_cases hv : v ∈ st.existing_track_uris
      · have he : addStep search st r = st := by simp [addStep, hs, hv]
        rw [he]
        exact ih st h1 h2
      · have he : addStep search st r =
            { existing_track_uris := v :: st.existing_track_uris,
              added := st.added ++ [v], kept := st.kept ++ [r] } := by
          simp [addStep, hs, hv]
        rw [he]
        apply ih
        · rw [List.nodup_append]
          refine ⟨h1, List.nodup_singleton v, ?_⟩
          intro a ha hb
          simp only [List.mem_singleton] at hb
          subst hb
          exact hv (h2 a ha)
        · intro u hu
          rcases List.mem_append.mp hu with h | h
          · exact List.mem_cons_of_mem _ (h2 u h)
          · simp only [List.mem_singleton] at h
            subst h
            exact List.mem_cons_self _ _

theorem addFold_kept_resolves (search : String → Option String)
    (rows : List Release) :
    ∀ st : AddState,
      st.kept.map (fun r => search (searchQuery r)) = st.added.map some →
      (rows.foldl (addStep search) st).kept.map
          (fun r => search (searchQuery r)) =
        (rows.foldl (addStep search) st).added.map some := by
  induction rows with
  | nil => intro st h; exact h
  | cons r rows ih =>
    intro st h
    simp only [List.foldl_cons]
    cases hs : search (searchQuery r) with
    | none =>
      have he : addStep search st r = st := by simp [addStep, hs]
      rw [he]
      exact ih st h
    | some v =>
      by_cases hv : v ∈ st.existing_track_uris
      · have he : addStep search st r = st := by simp [addStep, hs, hv]
        rw [he]
        exact ih st h
      · have he : addStep search st r =
            { existing_track_uris := v :: st.existing_track_uris,
              added := st.added ++ [v], kept := st.kept ++ [r] } := by
          simp [addStep, hs, hv]
        rw [he]
        apply ih
        simp [h, hs]

/-- C3: within one reconciliation run, each remote track identifier is passed
to the add operation at most once — the add-call sequence has no duplicates,
an identifier is added iff it was absent from the initial membership fetch
and some input row's search resolved to it, and each returned (kept) row
resolves to exactly the corresponding added identifier — a second row
resolving to an already-added identifier is dropped without another add
call, because the in-memory set is seeded from the initial fetch and grown
after each successful add. -/
theorem add_called_once_per_track_id (search : String → Option String)
    (existing : List String) (rows : List Release) :
    (add_songs_to_playlist search existing rows).1.Nodup ∧
    (∀ u, u ∈ (add_songs_to_playlist search existing rows).1 ↔
      u ∉ existing ∧ ∃ r ∈ rows, search (searchQuery r) = some u) ∧
    ((add_songs_to_playlist search existing rows).2.map
        (fun r => search (searchQuery r)) =
      ((add_songs_to_playlist search existing rows).1.map some).reverse) := by
  unfold add_songs_to_playlist
  refine ⟨(addFold_nodup search rows ⟨existing, [], []⟩ (by simp) (by simp)).1,
    fun u => ?_, ?_⟩
  · rw [addFold_mem_added search rows ⟨existing, [], []⟩ u]
    simp
  · rw [List.map_reverse,
      addFold_kept_resolves search rows ⟨existing, [], []⟩ (by simp)]

/-! ### C5 — transport exceptions in the page walker -/

/-- One walker step succeeds and keeps a usable `response` whenever the
status check can read a `response` (some fetch already assigned it, or this
very fetch does) and every 200-response in sight extracts cleanly. -/
theorem stepPage_preserves (P : ExtractParams) (st : WalkState)
    (f : FetchResult)
    (hne : f = .exn → st.response ≠ none)
    (hok : ∀ bl, st.response = some (200, bl) →
      ∃ d, get_dataframe_from_soup P bl = Except.ok d)
    (hf : ∀ bl, f = .resp 200 bl →
      ∃ d, get_dataframe_from_soup P bl = Except.ok d) :
    ∃ st', stepPage P st f = Except.ok st' ∧ st'.response ≠ none ∧
      ∀ bl, st'.response = some (200, bl) →
        ∃ d, get_dataframe_from_soup P bl = Except.ok d := by
  cases f with
  | exn =>
    obtain ⟨⟨status, blocks⟩, hresp⟩ :=
      Option.ne_none_iff_exists'.mp (hne rfl)
    by_cases h200 : status = 200
    · subst h200
      obtain ⟨d, hd⟩ := hok blocks hresp
      refine ⟨⟨some (200, blocks), st.final_df ++ d,
        st.log ++ [.fetchError]⟩, ?_, by simp, ?_⟩
      · simp [stepPage, hresp, hd]
      · intro bl hbl
        simp only [Option.some.injEq, Prod.mk.injEq] at hbl
        exact hbl.2 ▸ ⟨d, hd⟩
    · refine ⟨⟨some (status, blocks), st.final_df,
        st.log ++ [.fetchError] ++ [.badStatus status]⟩, ?_, by simp, ?_⟩
      · simp [stepPage, hresp, h200]
      · intro bl hbl
        simp only [Option.some.injEq, Prod.mk.injEq] at hbl
        exact absurd hbl.1 h200
  | resp status bl =>
    by_cases h200 : status = 200
    · subst h200
      obtain ⟨d, hd⟩ := hf bl rfl
      refine ⟨⟨some (200, bl), st.final_df ++ d, st.log⟩, ?_, by simp, ?_⟩
      · simp [stepPage, hd]
      · intro bl' hbl
        simp only [Option.some.injEq, Prod.mk.injEq] at hbl
        exact hbl.2 ▸ ⟨d, hd⟩
    · refine ⟨⟨some (status, bl), st.final_df,
        st.log ++ [.badStatus status]⟩, ?_, by simp, ?_⟩
      · simp [stepPage, h200]
      · intro bl' hbl
        simp only [Option.some.injEq, Prod.mk.injEq] at hbl
        exact absurd hbl.1 h200

theorem walkFold_ok (P : ExtractParams) (fetch : ℕ → FetchResult) :
    ∀ (pages : List ℕ) (st : WalkState),
      st.response ≠ none →
      (∀ bl, st.response = some (200, bl) →
        ∃ d, get_dataframe_from_soup P bl = Except.ok d) →
      (∀ p ∈ pages, ∀ bl, fetch p = .resp 200 bl →
        ∃ d, get_dataframe_from_soup P bl = Except.ok d) →
      ∃ out, pages.foldlM (fun s p => stepPage P s (fetch p)) st =
        Except.ok out := by
  intro pages
  induction pages with
  | nil => intro st _ _ _; exact ⟨st, rfl⟩
  | cons p pages ih =>
    intro st hne hok hfetch
    obtain ⟨st', hstep, hne', hok'⟩ := stepPage_preserves P st (fetch p)
      (fun _ => hne) hok (hfetch p (List.mem_cons_self _ _))
    obtain ⟨out, hout⟩ := ih st' hne' hok'
      (fun q hq => hfetch q (List.mem_cons_of_mem _ hq))
    exact ⟨out, by
      rw [List.foldlM_cons, hstep]
      simpa [Bind.bind, Except.bind] using hout⟩

/-- C5: a transport-level exception while fetching a page is caught and does
not propagate past the walk (given that the very first fetch of the range
does not throw, so the `response` local is bound, and that 200-responses
extract cleanly); and the status check after a thrown fetch is evaluated
against the previous page's response object — the step appends that previous
response's extraction again and logs the error. -/
theorem transport_error_nonfatal_and_stale_status_check
    (P : ExtractParams) (fetch : ℕ → FetchResult) (s e : ℕ)
    (st : WalkState) (blocks : List AlbumBlock) (d : List Release)
    (hfirst : fetch s ≠ .exn)
    (hextract : ∀ p, s ≤ p → p ≤ e → ∀ bl, fetch p = .resp 200 bl →
      ∃ dd, get_dataframe_from_soup P bl = Except.ok dd)
    (hst : st.response = some (200, blocks))
    (hd : get_dataframe_from_soup P blocks = Except.ok d) :
    (scrape_multiple_pages P fetch s e).isOk = true ∧
    stepPage P st .exn =
      Except.ok ⟨some (200, blocks), st.final_df ++ d,
        st.log ++ [.fetchError]⟩ := by
  constructor
  · unfold scrape_multiple_pages
    rcases hn : e + 1 - s with _ | m
    · rfl
    · have hse : s ≤ e := by omega
      have hbound : s + m = e := by omega
      rw [List.range'_succ]
      obtain ⟨st', hstep, hne', hok'⟩ := stepPage_preserves P
        ⟨none, [], []⟩ (fetch s) (fun hx => absurd hx hfirst)
        (by intro bl h; simp at h)
        (fun bl hb => hextract s le_rfl hse bl hb)
      obtain ⟨out, hout⟩ := walkFold_ok P fetch (List.range' (s + 1) m) st'
        hne' hok'
        (by
          intro q hq bl hb
          obtain ⟨hq1, hq2⟩ := List.mem_range'_1.mp hq
          exact hextract q (by omega) (by omega) bl hb)
      rw [List.foldlM_cons, hstep]
      simp only [Bind.bind, Except.bind]
      rw [hout]
      rfl
  · simp [stepPage, hst, hd]

/-- Witness for C5: page 1 responds 200 with an empty page, page 2 throws;
the walk ends without error, and a thrown step against a stored 200 response
re-appends that response's (empty) extraction and logs the failure. -/
theorem transport_error_nonfatal_and_stale_status_check_witness :
    (scrape_multiple_pages wParams
      (fun p => if p = 1 then .resp 200 [] else .exn) 1 2).isOk = true ∧
    stepPage wParams ⟨some (200, []), [], []⟩ .exn =
      Except.ok ⟨some (200, []), ([] : List Release) ++ [],
        ([] : List WalkLog) ++ [.fetchError]⟩ :=
  transport_error_nonfatal_and_stale_status_check wParams
    (fun p => if p = 1 then .resp 200 [] else .exn) 1 2
    ⟨some (200, []), [], []⟩ [] []
    (by decide)
    (by
      intro p h1 h2 bl hb
      interval_cases p
      · exact ⟨[], by
          simp only [if_pos rfl] at hb
          obtain rfl : bl = [] := by
            injection hb with h h'
            exact h'.symm
          rfl⟩
      · simp at hb)
    rfl
    rfl

/-! ### C6 — playlist-not-found returns empty membership -/

theorem getAllAux_404 (pid : String) :
    ∀ (stream : List PageResult) (k : ℕ) (acc : List String),
      (∀ j, j < k → ∃ its, stream.get? j = some (.ok its true)) →
      stream.get? k = some (.err 404) →
      getAllAux pid acc stream = ([], [.notFound pid]) := by
  intro stream
  induction stream with
  | nil =>
    intro k acc _ h404
    simp at h404
  | cons x rest ih =>
    intro k acc hpre h404
    cases k with
    | zero =>
      simp only [List.get?] at h404
      obtain rfl : x = .err 404 := Option.some.inj h404
      rfl
    | succ k =>
      obtain ⟨its, hx⟩ := hpre 0 (Nat.succ_pos k)
      simp only [List.get?] at hx
      obtain rfl : x = .ok its true := Option.some.inj hx
      simp only [List.get?] at h404
      exact ih k (acc ++ its)
        (fun j hj => hpre (j + 1) (Nat.succ_lt_succ hj)) h404

/-- C6: if the membership fetch hits a 404 (playlist not found) — on the
initial request or on any later page of the pagination — the operation logs
the condition and returns an empty membership list instead of raising, for
any playlist identifier. -/
theorem playlist_not_found_returns_empty (pid : String)
    (stream : List PageResult) (k : ℕ)
    (hpre : ∀ j, j < k → ∃ its, stream.get? j = some (.ok its true))
    (h404 : stream.get? k = some (.err 404)) :
    get_all_playlist_tracks pid stream = ([], [.notFound pid]) :=
  getAllAux_404 pid stream k [] hpre h404

/-- Witness for C6: a 404 on the second page of the pagination. -/
theorem playlist_not_found_returns_empty_witness :
    get_all_playlist_tracks "spotify:playlist:x"
      [.ok ["a", "b"] true, .err 404] =
      ([], [.notFound "spotify:playlist:x"]) :=
  playlist_not_found_returns_empty "spotify:playlist:x"
    [.ok ["a", "b"] true, .err 404] 1
    (by
      intro j hj
      interval_cases j
      exact ⟨["a", "b"], rfl⟩)
    rfl

end SinglesScrapper
